import Mathlib

/-
  Verification of the PyTA technical-analysis library's core numerical
  semantics, as a shallow embedding in Lean 4.

  Numeric model: pandas/NumPy float64 values are embedded as exact
  rationals (ℚ) where the claims are about the mathematical recurrences
  and window reductions, and as an extended value type PVal
  (finite rational / +inf / -inf / NaN) where the claims are about
  IEEE-754 division-by-zero and missing-value behaviour.
  Series are embedded as Lean lists aligned with the positional index;
  a missing entry (NaN in a float column) is Option.none where the claim
  is about definedness.  DataFrames are association lists from column
  names to columns; pandas operations that return fresh objects are pure
  functions, and the one operation that mutates its argument in place
  (column assignment, as in the PP indicator) is embedded by explicit
  state passing: the function returns both its result and the post-call
  state of its argument.
-/

namespace PyTA

/-! ### The ewm(adjust=False) recurrence (pandas ExponentialMovingWindow)

    Source: overlap_studies.py, EMA -- data.ewm(span=span, adjust=False).mean().
    With adjust=False pandas computes y[0] = x[0] and
    y[t] = (1-alpha) * y[t-1] + alpha * x[t], alpha = 2/(span+1). -/

/-- The tail of the no-adjust exponential smoothing: given the previous
    output p, produce the outputs for the remaining inputs. -/
def emaFrom (a p : ℚ) : List ℚ → List ℚ
  | [] => []
  | x :: xs => (a * x + (1 - a) * p) :: emaFrom a (a * x + (1 - a) * p) xs

/-- pandas ewm(adjust=False).mean() over a list of (non-missing) values:
    the first output equals the first input, later outputs follow the
    recurrence. -/
def emaList (a : ℚ) : List ℚ → List ℚ
  | [] => []
  | x :: xs => x :: emaFrom a x xs

/-- EMA of overlap_studies.py with a span parameter: alpha = 2/(span+1). -/
def emaSpan (s : ℕ) (xs : List ℚ) : List ℚ :=
  emaList (2 / ((s : ℚ) + 1)) xs

theorem emaFrom_length (a : ℚ) : ∀ (xs : List ℚ) (p : ℚ),
    (emaFrom a p xs).length = xs.length := by
  intro xs
  induction xs with
  | nil => intro p; rfl
  | cons x rest ih => intro p; simp [emaFrom, ih]

theorem emaList_length (a : ℚ) (xs : List ℚ) :
    (emaList a xs).length = xs.length := by
  cases xs with
  | nil => rfl
  | cons x rest => simp [emaList, emaFrom_length]

theorem emaFrom_getD_succ (a : ℚ) : ∀ (xs : List ℚ) (p : ℚ) (t : ℕ),
    t + 1 < xs.length →
    (emaFrom a p xs).getD (t + 1) 0 =
      a * xs.getD (t + 1) 0 + (1 - a) * (emaFrom a p xs).getD t 0 := by
  intro xs
  induction xs with
  | nil => intro p t ht; simp at ht
  | cons x rest ih =>
      intro p t ht
      cases t with
      | zero =>
          cases rest with
          | nil => simp at ht
          | cons z rest2 => simp [emaFrom, List.getD_cons_succ, List.getD_cons_zero]
      | succ t2 =>
          have h2 : t2 + 1 < rest.length := by
            simpa [List.length_cons] using Nat.lt_of_succ_lt_succ ht
          simpa [emaFrom, List.getD_cons_succ] using
            ih (a * x + (1 - a) * p) t2 h2

/-- C4.  The no-adjust EMA (EMA with adjust=False) on a non-empty input
    satisfies ema[0] = x[0] exactly and, for every later position t,
    ema[t] = alpha * x[t] + (1 - alpha) * ema[t-1] with alpha = 2/(span+1). -/
theorem C4_ema_noadjust_recurrence (s : ℕ) (hs : 1 ≤ s) (x0 : ℚ) (xs : List ℚ) :
    (emaSpan s (x0 :: xs)).getD 0 0 = x0 ∧
    ∀ t : ℕ, t + 1 < (x0 :: xs).length →
      (emaSpan s (x0 :: xs)).getD (t + 1) 0 =
        (2 / ((s : ℚ) + 1)) * (x0 :: xs).getD (t + 1) 0 +
          (1 - 2 / ((s : ℚ) + 1)) * (emaSpan s (x0 :: xs)).getD t 0 := by
  constructor
  · rfl
  · intro t ht
    cases t with
    | zero =>
        cases xs with
        | nil => simp at ht
        | cons z rest =>
            simp [emaSpan, emaList, emaFrom, List.getD_cons_succ, List.getD_cons_zero]
    | succ t2 =>
        have h2 : t2 + 1 < xs.length := by
          simpa [List.length_cons] using Nat.lt_of_succ_lt_succ ht
        simpa [emaSpan, emaList, List.getD_cons_succ] using
          emaFrom_getD_succ (2 / ((s : ℚ) + 1)) xs x0 t2 h2

/-- Witness for C4 at span 1 and input [1, 2]. -/
theorem C4_witness :
    1 ≤ 1 ∧
    ((emaSpan 1 (1 :: [2])).getD 0 0 = 1 ∧
    ∀ t : ℕ, t + 1 < ((1 : ℚ) :: [2]).length →
      (emaSpan 1 (1 :: [2])).getD (t + 1) 0 =
        (2 / ((1 : ℕ) + 1 : ℚ)) * ((1 : ℚ) :: [2]).getD (t + 1) 0 +
          (1 - 2 / ((1 : ℕ) + 1 : ℚ)) * (emaSpan 1 (1 :: [2])).getD t 0) :=
  ⟨Nat.le_refl 1, C4_ema_noadjust_recurrence 1 (Nat.le_refl 1) 1 [2]⟩

/-! ### Idempotence analysis of the no-adjust EMA (DEMA composes ema.ewm(...)) -/

theorem emaFrom_fixed_const (a : ℚ) (ha : a ≠ 1) : ∀ (xs : List ℚ) (p : ℚ),
    emaFrom a p xs = xs → ∀ w ∈ xs, w = p := by
  intro xs
  induction xs with
  | nil => intro p _ w hw; simp at hw
  | cons z zs ih =>
      intro p heq w hw
      rw [emaFrom] at heq
      injection heq with h1 h2
      have hne : (1 : ℚ) - a ≠ 0 := sub_ne_zero_of_ne (Ne.symm ha)
      have hp : p = z := by
        have hz : (1 - a) * p = (1 - a) * z := by ring_nf; ring_nf at h1; linarith
        exact mul_left_cancel₀ hne hz
      have hy : a * z + (1 - a) * p = z := by rw [hp]; ring
      rw [hy] at h2
      rcases List.mem_cons.mp hw with hwz | hwzs
      · rw [hwz, hp]
      · rw [hp]; exact ih z h2 w hwzs

theorem emaFrom_const_input (a : ℚ) (ha : a ≠ 0) : ∀ (xs : List ℚ) (p : ℚ),
    (∀ w ∈ emaFrom a p xs, w = p) → ∀ w ∈ xs, w = p := by
  intro xs
  induction xs with
  | nil => intro p _ w hw; simp at hw
  | cons z zs ih =>
      intro p hconst w hw
      have hy : a * z + (1 - a) * p = p := by
        apply hconst
        rw [emaFrom]
        exact List.mem_cons_self _ _
      have hz : z = p := by
        have : a * z = a * p := by linarith
        exact mul_left_cancel₀ ha this
      rcases List.mem_cons.mp hw with hwz | hwzs
      · rw [hwz, hz]
      · apply ih p _ w hwzs
        intro u hu
        apply hconst
        rw [emaFrom]
        exact List.mem_cons_of_mem _ (by rw [hy]; exact hu)

theorem emaList_not_idempotent (a : ℚ) (ha0 : a ≠ 0) (ha1 : a ≠ 1)
    (xs : List ℚ) (h : ∃ x ∈ xs, ∃ y ∈ xs, x ≠ y) :
    emaList a (emaList a xs) ≠ emaList a xs := by
  intro hfix
  obtain ⟨x, hx, y, hy, hxy⟩ := h
  cases xs with
  | nil => simp at hx
  | cons x0 rest =>
      rw [show emaList a (x0 :: rest) = x0 :: emaFrom a x0 rest from rfl] at hfix
      have hfix2 : emaFrom a x0 (emaFrom a x0 rest) = emaFrom a x0 rest := by
        rw [show emaList a (x0 :: emaFrom a x0 rest) =
              x0 :: emaFrom a x0 (emaFrom a x0 rest) from rfl] at hfix
        injection hfix
      have hconst1 : ∀ w ∈ emaFrom a x0 rest, w = x0 :=
        emaFrom_fixed_const a ha1 _ x0 hfix2
      have hconst2 : ∀ w ∈ rest, w = x0 :=
        emaFrom_const_input a ha0 rest x0 hconst1
      have hall : ∀ w ∈ x0 :: rest, w = x0 := by
        intro w hw
        rcases List.mem_cons.mp hw with h1 | h2
        · exact h1
        · exact hconst2 w h2
      exact hxy ((hall x hx).trans (hall y hy).symm)

/-- C6.  The span-5 no-adjust EMA is not idempotent: on every non-constant
    input, applying it twice differs from applying it once; the composition
    is nonetheless total and length preserving. -/
theorem C6_ema_not_idempotent (xs : List ℚ)
    (h : ∃ x ∈ xs, ∃ y ∈ xs, x ≠ y) :
    (emaSpan 5 (emaSpan 5 xs)).length = xs.length ∧
    emaSpan 5 (emaSpan 5 xs) ≠ emaSpan 5 xs := by
  refine ⟨by simp [emaSpan, emaList_length], ?_⟩
  have ha0 : (2 / ((5 : ℕ) + 1 : ℚ)) ≠ 0 := by norm_num
  have ha1 : (2 / ((5 : ℕ) + 1 : ℚ)) ≠ 1 := by norm_num
  exact emaList_not_idempotent _ ha0 ha1 xs h

/-- Witness for C6 at the non-constant input [0, 1]. -/
theorem C6_witness :
    (emaSpan 5 (emaSpan 5 [0, 1])).length = ([0, 1] : List ℚ).length ∧
    emaSpan 5 (emaSpan 5 [0, 1]) ≠ emaSpan 5 [0, 1] :=
  C6_ema_not_idempotent [0, 1]
    ⟨0, by simp, 1, by simp, by norm_num⟩

/-! ### Rolling windows (pandas Series.rolling)

    Source: overlap_studies.py SMA -- data.rolling(window=window).mean();
    stats.py STDDEV/VAR -- .rolling(window).std()/.var() (ddof = 1).
    pandas semantics embedded: with the default min_periods = window, the
    output at position t is defined iff the full window fits
    (window ≤ t+1) and the reducer has enough observations
    (nobs ≥ 1 for mean, nobs > ddof = 1 for var/std); pandas rolling
    validation accepts any integer window ≥ 0 and raises
    ValueError (window must be an integer 0 or greater) on negatives,
    while ewm raises ValueError (span must satisfy: span >= 1) for
    span < 1. -/

/-- The values inside the rolling window ending at position t. -/
def winEnd (w : ℕ) (xs : List ℚ) (t : ℕ) : List ℚ :=
  (xs.take (t + 1)).drop (t + 1 - w)

def listMean (l : List ℚ) : ℚ := l.sum / l.length

/-- Sample variance with ddof = 1 (the pandas rolling .var default). -/
def listVar (l : List ℚ) : ℚ :=
  (l.map (fun x => (x - listMean l) ^ 2)).sum / ((l.length : ℚ) - 1)

/-- Square root on ℚ, embedding numpy sqrt where the development only
    needs its exact values on perfect-square rationals (the claims
    evaluate it at variance 0, where it is exact). -/
def ratSqrt (q : ℚ) : ℚ := (Nat.sqrt q.num.toNat : ℚ) / (Nat.sqrt q.den : ℚ)

def rollingMeanOpt (w : ℕ) (xs : List ℚ) : List (Option ℚ) :=
  (List.range xs.length).map fun t =>
    if 1 ≤ w ∧ w ≤ t + 1 then some (listMean (winEnd w xs t)) else none

def rollingVarOpt (w : ℕ) (xs : List ℚ) : List (Option ℚ) :=
  (List.range xs.length).map fun t =>
    if 2 ≤ w ∧ w ≤ t + 1 then some (listVar (winEnd w xs t)) else none

def rollingStdOpt (w : ℕ) (xs : List ℚ) : List (Option ℚ) :=
  (rollingVarOpt w xs).map (Option.map ratSqrt)

/-- SMA of overlap_studies.py on the Close column: pandas rolling
    validation, then the rolling mean. -/
def SMA (window : Int) (close : List ℚ) : Except String (List (Option ℚ)) :=
  if window < 0 then Except.error ("window must be an integer 0 or greater")
  else Except.ok (rollingMeanOpt window.toNat close)

/-- STDDEV of stats.py on the Close column. -/
def STDDEV (window : Int) (close : List ℚ) : Except String (List (Option ℚ)) :=
  if window < 0 then Except.error ("window must be an integer 0 or greater")
  else Except.ok (rollingStdOpt window.toNat close)

/-- EMA of overlap_studies.py on the Close column: pandas ewm validation,
    then the no-adjust recurrence (defined from position 0 on). -/
def EMA (span : Int) (close : List ℚ) : Except String (List (Option ℚ)) :=
  if span < 1 then Except.error ("span must satisfy: span >= 1")
  else Except.ok ((emaSpan span.toNat close).map some)

theorem winEnd_replicate (w n t : ℕ) (v : ℚ) (ht : t < n) (hw : w ≤ t + 1) :
    winEnd w (List.replicate n v) t = List.replicate w v := by
  unfold winEnd
  rw [List.take_replicate, List.drop_replicate]
  congr 1
  omega

theorem listMean_replicate (k : ℕ) (v : ℚ) (hk : 1 ≤ k) :
    listMean (List.replicate k v) = v := by
  have hknz : (k : ℚ) ≠ 0 := Nat.cast_ne_zero.mpr (by omega)
  unfold listMean
  rw [List.sum_replicate, List.length_replicate, nsmul_eq_mul]
  exact mul_div_cancel_left₀ v hknz

theorem listVar_replicate (k : ℕ) (v : ℚ) : listVar (List.replicate k v) = 0 := by
  cases k with
  | zero => simp [listVar]
  | succ m =>
      unfold listVar
      rw [listMean_replicate (m + 1) v (by omega)]
      simp

theorem emaFrom_replicate (a v : ℚ) : ∀ k : ℕ,
    emaFrom a v (List.replicate k v) = List.replicate k v := by
  intro k
  induction k with
  | zero => rfl
  | succ m ih =>
      have hv : a * v + (1 - a) * v = v := by ring
      simp [List.replicate_succ, emaFrom, hv, ih]

theorem emaList_replicate (a v : ℚ) (n : ℕ) :
    emaList a (List.replicate n v) = List.replicate n v := by
  cases n with
  | zero => rfl
  | succ m => simp [List.replicate_succ, emaList, emaFrom_replicate]

theorem ratSqrt_zero : ratSqrt 0 = 0 := by
  simp [ratSqrt]

/-- C5.  On a constant input of value v, the rolling mean (SMA) is exactly
    v and rolling variance/standard deviation (VAR/STDDEV) are exactly 0 at
    every defined position, and the no-adjust EMA is exactly v everywhere. -/
theorem C5_constant_fixed_point (v : ℚ) (n w s : ℕ) :
    (∀ o ∈ rollingMeanOpt w (List.replicate n v), o = none ∨ o = some v) ∧
    emaSpan s (List.replicate n v) = List.replicate n v ∧
    (∀ o ∈ rollingVarOpt w (List.replicate n v), o = none ∨ o = some 0) ∧
    (∀ o ∈ rollingStdOpt w (List.replicate n v), o = none ∨ o = some 0) := by
  have hvar : ∀ o ∈ rollingVarOpt w (List.replicate n v), o = none ∨ o = some 0 := by
    intro o ho
    rw [rollingVarOpt] at ho
    obtain ⟨t, htr, rfl⟩ := List.mem_map.mp ho
    have ht : t < n := by simpa using List.mem_range.mp htr
    by_cases hc : 2 ≤ w ∧ w ≤ t + 1
    · right
      rw [if_pos hc, winEnd_replicate w n t v ht hc.2, listVar_replicate]
    · left; rw [if_neg hc]
  refine ⟨?_, emaList_replicate _ v n, hvar, ?_⟩
  · intro o ho
    rw [rollingMeanOpt] at ho
    obtain ⟨t, htr, rfl⟩ := List.mem_map.mp ho
    have ht : t < n := by simpa using List.mem_range.mp htr
    by_cases hc : 1 ≤ w ∧ w ≤ t + 1
    · right
      rw [if_pos hc, winEnd_replicate w n t v ht hc.2,
        listMean_replicate w v hc.1]
    · left; rw [if_neg hc]
  · intro o ho
    rw [rollingStdOpt] at ho
    obtain ⟨o2, ho2, rfl⟩ := List.mem_map.mp ho
    rcases hvar o2 ho2 with h | h
    · left; rw [h]; rfl
    · right; rw [h]; simp [ratSqrt_zero]

/-- C8 counterexample: SMA with window = 0 does not raise a configuration
    error; pandas rolling validation accepts window 0 and the call returns
    an (all-missing) series. -/
theorem C8_counterexample : SMA 0 [(1 : ℚ)] = Except.ok [none] := by
  rfl

/-- C8 (amended).  EMA with span ≤ 0 and SMA with window < 0 are rejected
    synchronously with a configuration error, distinct in kind from any
    numeric result; SMA with window = 0, however, does not raise: it
    returns a series that is missing at every position (still never a
    plain numeric output). -/
theorem C8_config_errors (s w : Int) (close : List ℚ)
    (hs : s ≤ 0) (hw : w < 0) :
    EMA s close = Except.error ("span must satisfy: span >= 1") ∧
    SMA w close = Except.error ("window must be an integer 0 or greater") ∧
    SMA 0 close = Except.ok (rollingMeanOpt 0 close) ∧
    ∀ o ∈ rollingMeanOpt 0 close, o = none := by
  refine ⟨?_, ?_, ?_, ?_⟩
  · rw [EMA, if_pos (by omega)]
  · rw [SMA, if_pos hw]
  · rw [SMA, if_neg (by omega)]; rfl
  · intro o ho
    rw [rollingMeanOpt] at ho
    obtain ⟨t, _, rfl⟩ := List.mem_map.mp ho
    rw [if_neg (by omega)]

/-- Witness for C8 at span 0, window -1, input [1, 2]. -/
theorem C8_witness :
    EMA 0 [(1 : ℚ), 2] = Except.error ("span must satisfy: span >= 1") ∧
    SMA (-1) [(1 : ℚ), 2] = Except.error ("window must be an integer 0 or greater") ∧
    SMA 0 [(1 : ℚ), 2] = Except.ok (rollingMeanOpt 0 [(1 : ℚ), 2]) ∧
    ∀ o ∈ rollingMeanOpt 0 [(1 : ℚ), 2], o = none :=
  C8_config_errors 0 (-1) [(1 : ℚ), 2] (by omega) (by omega)

/-- Witness for C5-style definedness at a concrete input (constant 7,
    n = 3, window 2, span 5). -/
theorem C5_witness :
    (∀ o ∈ rollingMeanOpt 2 (List.replicate 3 (7 : ℚ)), o = none ∨ o = some 7) ∧
    emaSpan 5 (List.replicate 3 (7 : ℚ)) = List.replicate 3 (7 : ℚ) ∧
    (∀ o ∈ rollingVarOpt 2 (List.replicate 3 (7 : ℚ)), o = none ∨ o = some 0) ∧
    (∀ o ∈ rollingStdOpt 2 (List.replicate 3 (7 : ℚ)), o = none ∨ o = some 0) :=
  C5_constant_fixed_point 7 3 2 5

/-! ### IEEE-754 extended values (pandas/NumPy float arithmetic on Series)

    pandas elementwise arithmetic follows NumPy float64 semantics: x/0 is
    +inf or -inf for nonzero x (the denominators produced by High - Low
    are +0), 0/0 is NaN, and no exception is raised.  PVal embeds a
    float64 as an exact rational, a signed infinity, or NaN. -/

inductive PVal where
  | num : ℚ → PVal
  | pinf : PVal
  | ninf : PVal
  | nan : PVal
  deriving DecidableEq, Repr

def negP : PVal → PVal
  | PVal.num a => PVal.num (-a)
  | PVal.pinf => PVal.ninf
  | PVal.ninf => PVal.pinf
  | PVal.nan => PVal.nan

def addP : PVal → PVal → PVal
  | PVal.nan, _ => PVal.nan
  | _, PVal.nan => PVal.nan
  | PVal.num a, PVal.num b => PVal.num (a + b)
  | PVal.num _, PVal.pinf => PVal.pinf
  | PVal.num _, PVal.ninf => PVal.ninf
  | PVal.pinf, PVal.num _ => PVal.pinf
  | PVal.ninf, PVal.num _ => PVal.ninf
  | PVal.pinf, PVal.pinf => PVal.pinf
  | PVal.ninf, PVal.ninf => PVal.ninf
  | PVal.pinf, PVal.ninf => PVal.nan
  | PVal.ninf, PVal.pinf => PVal.nan

def subP (a b : PVal) : PVal := addP a (negP b)

def mulP : PVal → PVal → PVal
  | PVal.nan, _ => PVal.nan
  | _, PVal.nan => PVal.nan
  | PVal.num a, PVal.num b => PVal.num (a * b)
  | PVal.num a, PVal.pinf =>
      if 0 < a then PVal.pinf else if a < 0 then PVal.ninf else PVal.nan
  | PVal.num a, PVal.ninf =>
      if 0 < a then PVal.ninf else if a < 0 then PVal.pinf else PVal.nan
  | PVal.pinf, PVal.num b =>
      if 0 < b then PVal.pinf else if b < 0 then PVal.ninf else PVal.nan
  | PVal.ninf, PVal.num b =>
      if 0 < b then PVal.ninf else if b < 0 then PVal.pinf else PVal.nan
  | PVal.pinf, PVal.pinf => PVal.pinf
  | PVal.pinf, PVal.ninf => PVal.ninf
  | PVal.ninf, PVal.pinf => PVal.ninf
  | PVal.ninf, PVal.ninf => PVal.pinf

def divP : PVal → PVal → PVal
  | PVal.nan, _ => PVal.nan
  | _, PVal.nan => PVal.nan
  | PVal.num a, PVal.num b =>
      if b ≠ 0 then PVal.num (a / b)
      else if 0 < a then PVal.pinf
      else if a < 0 then PVal.ninf
      else PVal.nan
  | PVal.num _, PVal.pinf => PVal.num 0
  | PVal.num _, PVal.ninf => PVal.num 0
  | PVal.pinf, PVal.num b => if 0 ≤ b then PVal.pinf else PVal.ninf
  | PVal.ninf, PVal.num b => if 0 ≤ b then PVal.ninf else PVal.pinf
  | PVal.pinf, _ => PVal.nan
  | PVal.ninf, _ => PVal.nan

/-! ### C2: division by zero in BOP (momentum.py) and AD (volume.py)

    BOP:  bop = (Close - Open) / (High - Low)
    AD :  ad  = ((2*Close - High - Low) / (High - Low)) * Volume, cumsum.
    Both are elementwise float arithmetic, so they never raise; the
    question is whether a zero denominator gives NaN or a signed
    infinity. -/

/-- One row of BOP: (close - open) / (high - low). -/
def bopRow (o h l c : ℚ) : PVal :=
  divP (subP (PVal.num c) (PVal.num o)) (subP (PVal.num h) (PVal.num l))

/-- One row of the AD term before cumsum:
    ((2*close - high - low) / (high - low)) * volume. -/
def adRow (h l c v : ℚ) : PVal :=
  mulP (divP (PVal.num (2 * c - h - l)) (subP (PVal.num h) (PVal.num l)))
    (PVal.num v)

/-- C2 counterexample: BOP on a row with High = Low = 5, Open = 1,
    Close = 2 evaluates to +inf, not the missing marker. -/
theorem C2_counterexample :
    bopRow 1 5 5 2 = PVal.pinf ∧ PVal.pinf ≠ PVal.nan := by
  constructor
  · norm_num [bopRow, subP, addP, negP, divP]
  · intro h; cases h

/-- C2 (amended).  Elementwise division never raises; a 0/0 row is NaN
    (missing), but a nonzero/0 row is a signed infinity, not missing:
    on any row with High = Low, BOP is NaN when Close = Open and a signed
    infinity otherwise, and the AD term is NaN when 2*Close = High + Low and a
    signed infinity otherwise (for nonzero Volume); the infinity then
    propagates through cumsum. -/
theorem C2_division_by_zero (o h l c v : ℚ) (hl : h = l) :
    bopRow o h l c =
      (if o < c then PVal.pinf else if c < o then PVal.ninf else PVal.nan) ∧
    (2 * c = h + l → adRow h l c v = PVal.nan) ∧
    (h < c → 0 < v → adRow h l c v = PVal.pinf) ∧
    (c < h → 0 < v → adRow h l c v = PVal.ninf) := by
  subst hl
  refine ⟨?_, ?_, ?_, ?_⟩
  · show divP (PVal.num (c + -o)) (PVal.num (h + -h)) = _
    have hz : h + -h = 0 := by ring
    rw [hz]
    by_cases h1 : o < c
    · rw [if_pos h1, divP, if_neg (by simp), if_pos (by linarith)]
    · by_cases h2 : c < o
      · rw [if_neg h1, if_pos h2, divP, if_neg (by simp),
          if_neg (by push_neg; linarith), if_pos (by linarith)]
      · rw [if_neg h1, if_neg h2, divP, if_neg (by simp),
          if_neg (by push_neg; linarith), if_neg (by push_neg; linarith)]
  · intro hc
    show mulP (divP (PVal.num (2 * c - h - h)) (PVal.num (h + -h))) _ = _
    have hz : h + -h = 0 := by ring
    have hn : 2 * c - h - h = 0 := by linarith
    rw [hz, hn, divP]
    simp [mulP]
  · intro hc hv
    show mulP (divP (PVal.num (2 * c - h - h)) (PVal.num (h + -h))) _ = _
    have hz : h + -h = 0 := by ring
    rw [hz, divP, if_neg (by simp), if_pos (by linarith)]
    rw [mulP, if_pos hv]
  · intro hc hv
    show mulP (divP (PVal.num (2 * c - h - h)) (PVal.num (h + -h))) _ = _
    have hz : h + -h = 0 := by ring
    rw [hz, divP, if_neg (by simp), if_neg (by push_neg; linarith),
      if_pos (by linarith)]
    rw [mulP, if_pos hv]

/-- Witness for C2 at High = Low = 5, Open = 1, Close = 2, Volume = 3. -/
theorem C2_witness :
    bopRow 1 5 5 2 =
      (if (1 : ℚ) < 2 then PVal.pinf else if (2 : ℚ) < 1 then PVal.ninf else PVal.nan) ∧
    (2 * (2 : ℚ) = 5 + 5 → adRow 5 5 2 3 = PVal.nan) ∧
    ((5 : ℚ) < 2 → (0 : ℚ) < 3 → adRow 5 5 2 3 = PVal.pinf) ∧
    ((2 : ℚ) < 5 → (0 : ℚ) < 3 → adRow 5 5 2 3 = PVal.ninf) :=
  C2_division_by_zero 1 5 5 2 3 rfl

/-! ### Per-window ordinary least squares (stats.py, scipy.stats.linregress)

    LINEARREG_SLOPE / LINEARREG_INTERCEPT apply
    linregress(np.arange(len(x)), x) to each full rolling window; slope
    and intercept are the textbook OLS closed forms over x = 0..w-1,
    embedded here exactly over ℚ. -/

/-- OLS slope of ys against the implicit x-coordinates 0..len-1. -/
def olsSlope (ys : List ℚ) : ℚ :=
  ((ys.length : ℚ) * ∑ j in Finset.range ys.length, (j : ℚ) * ys.getD j 0
    - (∑ j in Finset.range ys.length, (j : ℚ)) * ∑ j in Finset.range ys.length, ys.getD j 0)
  / ((ys.length : ℚ) * ∑ j in Finset.range ys.length, ((j : ℚ)) ^ 2
    - (∑ j in Finset.range ys.length, (j : ℚ)) ^ 2)

/-- OLS intercept: mean of y minus slope times mean of x. -/
def olsIntercept (ys : List ℚ) : ℚ :=
  (∑ j in Finset.range ys.length, ys.getD j 0) / ys.length
    - olsSlope ys * ((∑ j in Finset.range ys.length, (j : ℚ)) / ys.length)

def LINEARREG_SLOPE (window : ℕ) (close : List ℚ) : List (Option ℚ) :=
  (List.range close.length).map fun t =>
    if 1 ≤ window ∧ window ≤ t + 1 then some (olsSlope (winEnd window close t))
    else none

def LINEARREG_INTERCEPT (window : ℕ) (close : List ℚ) : List (Option ℚ) :=
  (List.range close.length).map fun t =>
    if 1 ≤ window ∧ window ≤ t + 1 then some (olsIntercept (winEnd window close t))
    else none

/-- The perfectly linear input y[t] = 2*t + 3 of the claim. -/
def linList (n : ℕ) : List ℚ := (List.range n).map fun t : ℕ => 2 * (t : ℚ) + 3

/-- An affine list a*j + b, j = 0..w-1 (the shape of every window of a
    globally linear input). -/
def affList (a b : ℚ) (w : ℕ) : List ℚ := (List.range w).map fun j : ℕ => a * (j : ℚ) + b

theorem getD_map_range {α : Type} (f : ℕ → α) (n t : ℕ) (d : α) (ht : t < n) :
    ((List.range n).map f).getD t d = f t := by
  rw [List.getD_eq_getElem _ _ (by simpa using ht)]
  simp

theorem sum_range_cast (n : ℕ) :
    (∑ j in Finset.range n, (j : ℚ)) = ((n : ℚ) ^ 2 - n) / 2 := by
  induction n with
  | zero => simp
  | succ m ih => rw [Finset.sum_range_succ, ih]; push_cast; ring

theorem sum_range_sq_cast (n : ℕ) :
    (∑ j in Finset.range n, ((j : ℚ)) ^ 2)
      = (2 * (n : ℚ) ^ 3 - 3 * (n : ℚ) ^ 2 + n) / 6 := by
  induction n with
  | zero => simp
  | succ m ih => rw [Finset.sum_range_succ, ih]; push_cast; ring

theorem affList_getD (a b : ℚ) (w j : ℕ) (hj : j < w) :
    (affList a b w).getD j 0 = a * j + b := by
  unfold affList
  exact getD_map_range _ w j 0 hj

theorem affList_length (a b : ℚ) (w : ℕ) : (affList a b w).length = w := by
  simp [affList]

theorem affList_sum_getD (a b : ℚ) (w : ℕ) :
    (∑ j in Finset.range w, (affList a b w).getD j 0)
      = a * (((w : ℚ) ^ 2 - w) / 2) + b * w := by
  have h : ∀ j ∈ Finset.range w, (affList a b w).getD j 0 = a * (j : ℚ) + b := by
    intro j hj
    exact affList_getD a b w j (Finset.mem_range.mp hj)
  rw [Finset.sum_congr rfl h, Finset.sum_add_distrib, ← Finset.mul_sum,
    sum_range_cast, Finset.sum_const, Finset.card_range, nsmul_eq_mul]
  ring

theorem affList_sum_mul_getD (a b : ℚ) (w : ℕ) :
    (∑ j in Finset.range w, (j : ℚ) * (affList a b w).getD j 0)
      = a * ((2 * (w : ℚ) ^ 3 - 3 * (w : ℚ) ^ 2 + w) / 6)
        + b * (((w : ℚ) ^ 2 - w) / 2) := by
  have h : ∀ j ∈ Finset.range w, (j : ℚ) * (affList a b w).getD j 0
      = a * ((j : ℚ)) ^ 2 + b * (j : ℚ) := by
    intro j hj
    rw [affList_getD a b w j (Finset.mem_range.mp hj)]
    ring
  rw [Finset.sum_congr rfl h, Finset.sum_add_distrib, ← Finset.mul_sum,
    ← Finset.mul_sum, sum_range_cast, sum_range_sq_cast]

theorem ols_denom_ne_zero (w : ℕ) (hw : 2 ≤ w) :
    (w : ℚ) * ((2 * (w : ℚ) ^ 3 - 3 * (w : ℚ) ^ 2 + w) / 6)
      - (((w : ℚ) ^ 2 - w) / 2) ^ 2 ≠ 0 := by
  have hw2 : (2 : ℚ) ≤ (w : ℚ) := by exact_mod_cast hw
  have h1 : 0 < (w : ℚ) ^ 4 - (w : ℚ) ^ 2 := by nlinarith [sq_nonneg ((w : ℚ) - 2), sq_nonneg ((w : ℚ) ^ 2 - 2)]
  have hpos : 0 < ((w : ℚ) ^ 4 - (w : ℚ) ^ 2) / 12 := div_pos h1 (by norm_num)
  have heq : (w : ℚ) * ((2 * (w : ℚ) ^ 3 - 3 * (w : ℚ) ^ 2 + w) / 6)
      - (((w : ℚ) ^ 2 - w) / 2) ^ 2 = ((w : ℚ) ^ 4 - (w : ℚ) ^ 2) / 12 := by ring
  rw [heq]
  exact ne_of_gt hpos

theorem olsSlope_affine (a b : ℚ) (w : ℕ) (hw : 2 ≤ w) :
    olsSlope (affList a b w) = a := by
  unfold olsSlope
  rw [affList_length, affList_sum_getD, affList_sum_mul_getD, sum_range_cast,
    sum_range_sq_cast]
  have hD := ols_denom_ne_zero w hw
  have hnum : (w : ℚ) * (a * ((2 * (w : ℚ) ^ 3 - 3 * (w : ℚ) ^ 2 + w) / 6)
        + b * (((w : ℚ) ^ 2 - w) / 2))
      - (((w : ℚ) ^ 2 - w) / 2) * (a * (((w : ℚ) ^ 2 - w) / 2) + b * w)
      = a * ((w : ℚ) * ((2 * (w : ℚ) ^ 3 - 3 * (w : ℚ) ^ 2 + w) / 6)
        - (((w : ℚ) ^ 2 - w) / 2) ^ 2) := by ring
  rw [hnum, mul_div_assoc, div_self hD, mul_one]

theorem olsIntercept_affine (a b : ℚ) (w : ℕ) (hw : 2 ≤ w) :
    olsIntercept (affList a b w) = b := by
  unfold olsIntercept
  rw [affList_length, affList_sum_getD, sum_range_cast, olsSlope_affine a b w hw]
  have hw0 : (w : ℚ) ≠ 0 := Nat.cast_ne_zero.mpr (by omega)
  field_simp
  ring

theorem winEnd_linList (w n t : ℕ) (hw : 1 ≤ w) (hwt : w ≤ t + 1) (ht : t < n) :
    winEnd w (linList n) t = affList 2 (2 * ((t + 1 - w : ℕ) : ℚ) + 3) w := by
  apply List.ext_getElem
  · simp [winEnd, linList, affList]
    omega
  · intro i h1 h2
    have hlin : (linList n).length = n := by simp [linList]
    simp only [winEnd, linList, affList, List.getElem_drop, List.getElem_take,
      List.getElem_map, List.getElem_range]
    have hcast : ((t + 1 - w + i : ℕ) : ℚ) = ((t + 1 - w : ℕ) : ℚ) + (i : ℚ) := by
      push_cast
      ring
    rw [hcast]
    ring

/-- C7 counterexample: on the linear input y[t] = 2*t + 3 with window 2,
    LINEARREG_INTERCEPT at the defined position t = 2 is 5, not 3: the
    per-window OLS intercept is the window-start value, which equals 3
    only at the first defined position. -/
theorem C7_counterexample :
    (LINEARREG_INTERCEPT 2 (linList 3)).getD 2 none = some 5 ∧ (5 : ℚ) ≠ 3 := by
  constructor
  · have hwin := winEnd_linList 2 3 2 (by omega) (by omega) (by omega)
    have hint := olsIntercept_affine 2 (2 * ((2 + 1 - 2 : ℕ) : ℚ) + 3) 2 (by omega)
    unfold LINEARREG_INTERCEPT
    rw [show (linList 3).length = 3 by simp [linList],
      getD_map_range _ 3 2 none (by omega), if_pos ⟨by omega, by omega⟩,
      hwin, hint]
    norm_num
  · norm_num

/-- C7 (amended).  On the perfectly linear input y[t] = 2*t + 3, for any
    window ≥ 2 and any defined position t, LINEARREG_SLOPE is exactly 2;
    LINEARREG_INTERCEPT equals 2*(t+1-window) + 3 — the value of y at the
    start of the window — which is exactly 3 at the first defined
    position t = window - 1 (and only there). -/
theorem C7_rolling_ols_on_linear (w n t : ℕ) (hw : 2 ≤ w) (ht : t < n)
    (hwt : w ≤ t + 1) :
    (LINEARREG_SLOPE w (linList n)).getD t none = some 2 ∧
    (LINEARREG_INTERCEPT w (linList n)).getD t none
      = some (2 * ((t + 1 - w : ℕ) : ℚ) + 3) ∧
    (t = w - 1 →
      (LINEARREG_INTERCEPT w (linList n)).getD t none = some 3) := by
  have hw1 : 1 ≤ w := by omega
  have hlen : (linList n).length = n := by simp [linList]
  have hwin := winEnd_linList w n t hw1 hwt ht
  have hslope : (LINEARREG_SLOPE w (linList n)).getD t none = some 2 := by
    unfold LINEARREG_SLOPE
    rw [hlen, getD_map_range _ n t none ht, if_pos ⟨hw1, hwt⟩, hwin,
      olsSlope_affine 2 _ w hw]
  have hint : (LINEARREG_INTERCEPT w (linList n)).getD t none
      = some (2 * ((t + 1 - w : ℕ) : ℚ) + 3) := by
    unfold LINEARREG_INTERCEPT
    rw [hlen, getD_map_range _ n t none ht, if_pos ⟨hw1, hwt⟩, hwin,
      olsIntercept_affine 2 _ w hw]
  refine ⟨hslope, hint, ?_⟩
  intro htw
  rw [hint]
  have hz : t + 1 - w = 0 := by omega
  rw [hz]
  norm_num

/-- Witness for C7 at window 2, n = 3, t = 2. -/
theorem C7_witness :
    (LINEARREG_SLOPE 2 (linList 3)).getD 2 none = some 2 ∧
    (LINEARREG_INTERCEPT 2 (linList 3)).getD 2 none
      = some (2 * ((2 + 1 - 2 : ℕ) : ℚ) + 3) ∧
    (2 = 2 - 1 →
      (LINEARREG_INTERCEPT 2 (linList 3)).getD 2 none = some 3) :=
  C7_rolling_ols_on_linear 2 3 2 (by omega) (by omega) (by omega)

/-! ### STOCH (momentum.py): rolling min/max and the %K ratio

    low_min  = Low.rolling(window=period).min()
    high_max = High.rolling(window=period).max()
    stoch_k  = 100 * (Close - low_min) / (high_max - low_min)
    Rolling min/max use the default min_periods = period, so warm-up
    positions are NaN, which propagates through the arithmetic; the
    division is NumPy float division, embedded through divP. -/

def foldMin : List ℚ → ℚ
  | [] => 0
  | x :: xs => xs.foldl min x

def foldMax : List ℚ → ℚ
  | [] => 0
  | x :: xs => xs.foldl max x

/-- The %K series of STOCH (first component of the returned tuple). -/
def STOCH_K (p : ℕ) (hi lo cl : List ℚ) : List PVal :=
  (List.range cl.length).map fun t =>
    if 1 ≤ p ∧ p ≤ t + 1 then
      divP (PVal.num (100 * (cl.getD t 0 - foldMin (winEnd p lo t))))
        (PVal.num (foldMax (winEnd p hi t) - foldMin (winEnd p lo t)))
    else PVal.nan

theorem foldl_min_le_init : ∀ (ys : List ℚ) (acc : ℚ), List.foldl min acc ys ≤ acc := by
  intro ys
  induction ys with
  | nil => intro acc; exact le_refl acc
  | cons y ys ih =>
      intro acc
      calc List.foldl min acc (y :: ys) = List.foldl min (min acc y) ys := rfl
        _ ≤ min acc y := ih (min acc y)
        _ ≤ acc := min_le_left _ _

theorem foldl_min_le_mem : ∀ (ys : List ℚ) (acc x : ℚ), x ∈ ys →
    List.foldl min acc ys ≤ x := by
  intro ys
  induction ys with
  | nil => intro acc x hx; simp at hx
  | cons y ys ih =>
      intro acc x hx
      rcases List.mem_cons.mp hx with h1 | h2
      · calc List.foldl min acc (y :: ys) = List.foldl min (min acc y) ys := rfl
          _ ≤ min acc y := foldl_min_le_init ys (min acc y)
          _ ≤ y := min_le_right _ _
          _ = x := h1.symm
      · exact ih (min acc y) x h2

theorem foldMin_le_mem (l : List ℚ) (x : ℚ) (hx : x ∈ l) : foldMin l ≤ x := by
  cases l with
  | nil => simp at hx
  | cons y ys =>
      rcases List.mem_cons.mp hx with h1 | h2
      · rw [h1]; exact foldl_min_le_init ys y
      · exact foldl_min_le_mem ys y x h2

theorem init_le_foldl_max : ∀ (ys : List ℚ) (acc : ℚ), acc ≤ List.foldl max acc ys := by
  intro ys
  induction ys with
  | nil => intro acc; exact le_refl acc
  | cons y ys ih =>
      intro acc
      calc acc ≤ max acc y := le_max_left _ _
        _ ≤ List.foldl max (max acc y) ys := ih (max acc y)
        _ = List.foldl max acc (y :: ys) := rfl

theorem mem_le_foldl_max : ∀ (ys : List ℚ) (acc x : ℚ), x ∈ ys →
    x ≤ List.foldl max acc ys := by
  intro ys
  induction ys with
  | nil => intro acc x hx; simp at hx
  | cons y ys ih =>
      intro acc x hx
      rcases List.mem_cons.mp hx with h1 | h2
      · calc x = y := h1
          _ ≤ max acc y := le_max_right _ _
          _ ≤ List.foldl max (max acc y) ys := init_le_foldl_max ys (max acc y)
          _ = List.foldl max acc (y :: ys) := rfl
      · exact ih (max acc y) x h2

theorem mem_le_foldMax (l : List ℚ) (x : ℚ) (hx : x ∈ l) : x ≤ foldMax l := by
  cases l with
  | nil => simp at hx
  | cons y ys =>
      rcases List.mem_cons.mp hx with h1 | h2
      · rw [h1]; exact init_le_foldl_max ys y
      · exact mem_le_foldl_max ys y x h2

theorem winEnd_length (w : ℕ) (xs : List ℚ) (t : ℕ)
    (hwt : w ≤ t + 1) (ht : t < xs.length) :
    (winEnd w xs t).length = w := by
  simp [winEnd]
  omega

theorem getD_mem_winEnd (w : ℕ) (xs : List ℚ) (t : ℕ)
    (hw : 1 ≤ w) (hwt : w ≤ t + 1) (ht : t < xs.length) :
    xs.getD t 0 ∈ winEnd w xs t := by
  have hlen : (winEnd w xs t).length = w := winEnd_length w xs t hwt ht
  have h1 : w - 1 < (winEnd w xs t).length := by omega
  have heq : (winEnd w xs t).get ⟨w - 1, h1⟩ = xs.getD t 0 := by
    rw [List.getD_eq_getElem xs 0 ht]
    show (winEnd w xs t)[w - 1] = xs[t]
    simp only [winEnd, List.getElem_drop, List.getElem_take]
    congr 1
    omega
  rw [← heq]
  exact List.get_mem _ _ h1

/-- C10.  For inputs with Low ≤ Close ≤ High rowwise, at every position
    where the rolling max of High strictly exceeds the rolling min of Low
    (and the window is full), STOCH %K is a finite value in [0, 100]. -/
theorem C10_stoch_k_bounded (p : ℕ) (hi lo cl : List ℚ) (t : ℕ)
    (hp : 1 ≤ p) (hpt : p ≤ t + 1) (ht : t < cl.length)
    (hhi : hi.length = cl.length) (hlo : lo.length = cl.length)
    (hlc : ∀ i, i < cl.length → lo.getD i 0 ≤ cl.getD i 0 ∧ cl.getD i 0 ≤ hi.getD i 0)
    (hrange : foldMin (winEnd p lo t) < foldMax (winEnd p hi t)) :
    (STOCH_K p hi lo cl).getD t PVal.nan =
      PVal.num (100 * (cl.getD t 0 - foldMin (winEnd p lo t))
        / (foldMax (winEnd p hi t) - foldMin (winEnd p lo t))) ∧
    0 ≤ 100 * (cl.getD t 0 - foldMin (winEnd p lo t))
        / (foldMax (winEnd p hi t) - foldMin (winEnd p lo t)) ∧
    100 * (cl.getD t 0 - foldMin (winEnd p lo t))
        / (foldMax (winEnd p hi t) - foldMin (winEnd p lo t)) ≤ 100 := by
  have hden : 0 < foldMax (winEnd p hi t) - foldMin (winEnd p lo t) :=
    sub_pos.mpr hrange
  have hll : foldMin (winEnd p lo t) ≤ lo.getD t 0 :=
    foldMin_le_mem _ _ (getD_mem_winEnd p lo t hp hpt (by omega))
  have hhh : hi.getD t 0 ≤ foldMax (winEnd p hi t) :=
    mem_le_foldMax _ _ (getD_mem_winEnd p hi t hp hpt (by omega))
  obtain ⟨hl1, hl2⟩ := hlc t ht
  refine ⟨?_, ?_, ?_⟩
  · unfold STOCH_K
    rw [getD_map_range _ cl.length t PVal.nan ht, if_pos ⟨hp, hpt⟩]
    simp only [divP]
    rw [if_pos hden.ne']
  · apply div_nonneg _ hden.le
    have : foldMin (winEnd p lo t) ≤ cl.getD t 0 := le_trans hll hl1
    linarith
  · rw [div_le_iff₀ hden]
    have : cl.getD t 0 ≤ foldMax (winEnd p hi t) := le_trans hl2 hhh
    linarith

/-- Witness for C10 at period 1, High = [2], Low = [0], Close = [1], t = 0. -/
theorem C10_witness :
    (STOCH_K 1 [2] [0] [1]).getD 0 PVal.nan =
      PVal.num (100 * (([1] : List ℚ).getD 0 0 - foldMin (winEnd 1 [0] 0))
        / (foldMax (winEnd 1 [2] 0) - foldMin (winEnd 1 [0] 0))) ∧
    0 ≤ 100 * (([1] : List ℚ).getD 0 0 - foldMin (winEnd 1 [0] 0))
        / (foldMax (winEnd 1 [2] 0) - foldMin (winEnd 1 [0] 0)) ∧
    100 * (([1] : List ℚ).getD 0 0 - foldMin (winEnd 1 [0] 0))
        / (foldMax (winEnd 1 [2] 0) - foldMin (winEnd 1 [0] 0)) ≤ 100 :=
  C10_stoch_k_bounded 1 [2] [0] [1] 0 (Nat.le_refl 1) (Nat.le_refl 1) (by simp)
    (by simp) (by simp)
    (by
      intro i h
      simp only [List.length_singleton] at h
      have hi0 : i = 0 := by omega
      subst hi0
      norm_num)
    (by norm_num [winEnd, foldMin, foldMax])

/-! ### SAR / SAREXT (overlap_studies.py): the procedural trend loop

    Both iterate i = 1..len(data)-1 updating (sar, trend, af), with a
    reversal test that resets sar and af; after every iteration,
    af = min(af + increment, af_max).  SAR returns the final scalar sar
    (a single float); SAREXT appends one sar per iteration (len-1 values)
    and then builds pd.Series(sar_series, index=data.index) against the
    len-long index of the input. -/

structure SarState where
  sar : ℚ
  trend : Int
  af : ℚ
  deriving Repr, DecidableEq

/-- One iteration of the SAREXT loop body over (high[i], low[i]); the SAR
    loop is the same body with af_start = increment = 0.02. -/
def sarStep (afStart afInc afMax : ℚ) (st : SarState) (h l : ℚ) : SarState :=
  if st.trend = 1 then
    if l < st.sar + st.af * (h - st.sar) then
      { sar := h, trend := -1, af := min (afStart + afInc) afMax }
    else
      { sar := st.sar + st.af * (h - st.sar), trend := 1,
        af := min (st.af + afInc) afMax }
  else
    if st.sar + st.af * (st.sar - l) < h then
      { sar := l, trend := 1, af := min (afStart + afInc) afMax }
    else
      { sar := st.sar + st.af * (st.sar - l), trend := st.trend,
        af := min (st.af + afInc) afMax }

def sarextGo (afStart afInc afMax : ℚ) : SarState → List (ℚ × ℚ) → List ℚ
  | _, [] => []
  | st, (h, l) :: rest =>
      (sarStep afStart afInc afMax st h l).sar ::
        sarextGo afStart afInc afMax (sarStep afStart afInc afMax st h l) rest

/-- The sar_series list SAREXT builds: one value per loop iteration
    i = 1..n-1, so n-1 values for an n-row input. -/
def sarextValues (afStart afInc afMax : ℚ) (hi lo : List ℚ) : List ℚ :=
  match hi, lo with
  | _ :: hrest, l0 :: lrest =>
      sarextGo afStart afInc afMax { sar := l0, trend := 1, af := afStart }
        (hrest.zip lrest)
  | _, _ => []

/-- SAR returns only the final scalar state of the same loop, not a
    series of per-row values. -/
def sarFinal (af maxAf : ℚ) (hi lo : List ℚ) : ℚ :=
  match hi, lo with
  | _ :: hrest, l0 :: lrest =>
      ((hrest.zip lrest).foldl
        (fun st p => sarStep (2 / 100) (2 / 100) maxAf st p.1 p.2)
        { sar := l0, trend := 1, af := af }).sar
  | _, _ => 0

theorem sarextGo_length (a b c : ℚ) : ∀ (ps : List (ℚ × ℚ)) (st : SarState),
    (sarextGo a b c st ps).length = ps.length := by
  intro ps
  induction ps with
  | nil => intro st; rfl
  | cons p rest ih =>
      intro st
      cases p with
      | mk h l => simp [sarextGo, ih]

/-- C1 (failing): on a 3-row input, SAREXT computes only 2 SAR values,
    not 3 — pd.Series(sar_series, index=data.index) then fails on the
    length mismatch — and SAR reduces the same loop to one scalar.  The
    spec's length/alignment invariant is violated by both. -/
theorem C1_sarext_truncated :
    (sarextValues (2 / 100) (2 / 100) (2 / 10) [5, 6, 7] [1, 2, 3]).length = 2 ∧
    ([5, 6, 7] : List ℚ).length = 3 ∧
    (sarextValues (2 / 100) (2 / 100) (2 / 10) [5, 6, 7] [1, 2, 3]).length ≠
      ([5, 6, 7] : List ℚ).length := by
  refine ⟨?_, by simp, ?_⟩
  · simp [sarextValues, sarextGo_length]
  · simp [sarextValues, sarextGo_length]

/-! ### DataFrames as association lists; PP (price_transform.py)

    data['Pivot'] = pivot assigns a column on the caller's DataFrame in
    place, so PP is embedded with explicit state passing: it returns both
    its result frame and the post-call state of its data argument. -/

abbrev Col := List (Option ℚ)
abbrev Frame := List (String × Col)

def getCol (f : Frame) (c : String) : Col :=
  ((f.find? fun p => p.1 == c).map Prod.snd).getD []

/-- pandas column assignment: replace the column if present, else append. -/
def setCol (f : Frame) (c : String) (v : Col) : Frame :=
  if f.any fun p => p.1 == c then
    f.map fun p => if p.1 == c then (c, v) else p
  else f ++ [(c, v)]

/-- Series.shift(1): first position missing, the rest moved down one. -/
def shift1 (col : Col) : Col := none :: col.dropLast

def colMap2 (g : ℚ → ℚ → ℚ) (u v : Col) : Col :=
  List.zipWith (fun a b =>
    match a, b with
    | some x, some y => some (g x y)
    | _, _ => none) u v

def colAdd (u v : Col) : Col := colMap2 (fun a b => a + b) u v

def colSub (u v : Col) : Col := colMap2 (fun a b => a - b) u v

def colSmulC (q : ℚ) (v : Col) : Col := v.map (Option.map fun x => q * x)

def colDivC (v : Col) (q : ℚ) : Col := v.map (Option.map fun x => x / q)

/-- PP of price_transform.py.  First component: the returned frame of the
    five derived columns; second component: the state of the caller's
    data argument after the call (the five column assignments mutate it). -/
def PP (data : Frame) : Frame × Frame :=
  let h1 := shift1 (getCol data ("High"))
  let l1 := shift1 (getCol data ("Low"))
  let c1 := shift1 (getCol data ("Close"))
  let pivot := colDivC (colAdd (colAdd h1 l1) c1) 3
  let r1 := colSub (colSmulC 2 pivot) l1
  let s1 := colSub (colSmulC 2 pivot) h1
  let r2 := colAdd pivot (colSub h1 l1)
  let s2 := colSub pivot (colSub h1 l1)
  let d5 := setCol (setCol (setCol (setCol (setCol data ("Pivot") pivot)
    ("Resistance1") r1) ("Support1") s1) ("Resistance2") r2) ("Support2") s2
  ([(("Pivot"), pivot), (("Resistance1"), r1), (("Support1"), s1),
    (("Resistance2"), r2), (("Support2"), s2)], d5)

/-- A one-row OHLC frame. -/
def ppInput : Frame :=
  [(("High"), [some 2]), (("Low"), [some 1]), (("Close"), [some (3 / 2)])]

/-- C3 (failing): after calling PP, the caller's DataFrame no longer has
    its original columns — five new columns have been added in place. -/
theorem C3_pp_mutates_input :
    ((PP ppInput).2).map Prod.fst ≠ ppInput.map Prod.fst ∧
    ((PP ppInput).2).map Prod.fst =
      [("High"), ("Low"), ("Close"), ("Pivot"), ("Resistance1"),
       ("Support1"), ("Resistance2"), ("Support2")] := by
  constructor
  · decide
  · decide

/-! ### solve_case (column_case_solver.py)

    Builds a renaming dict over the frame's columns — col mapped to
    col.capitalize() when col.lower() is one of nine known labels — and
    applies df.rename(columns=dict), which returns a new frame with
    unmatched columns unchanged; the caller's frame is untouched.
    Python str.lower / str.capitalize are embedded for their exact
    behaviour on these ASCII labels: capitalize uppercases the first
    character and lowercases all the rest. -/

def pyLower (s : String) : String := String.mk (s.toList.map Char.toLower)

def pyCapitalize (s : String) : String :=
  match s.toList with
  | [] => s
  | c :: cs => String.mk (c.toUpper :: cs.map Char.toLower)

def columnsToStandardize : List String :=
  [("date"), ("open"), ("high"), ("low"), ("close"), ("volume"),
   ("dividends"), ("stock splits"), ("capital gains")]

/-- The new_columns dict built by the loop in solve_case. -/
def newColumns (cols : List String) : List (String × String) :=
  cols.filterMap fun c =>
    if pyLower c ∈ columnsToStandardize then some (c, pyCapitalize c)
    else none

/-- solve_case: df.rename maps every column through the dict, leaving
    columns without an entry unchanged, and touches no values. -/
def solve_case (df : List (String × List ℚ)) : List (String × List ℚ) :=
  df.map fun p => (((newColumns (df.map Prod.fst)).lookup p.1).getD p.1, p.2)

theorem newColumns_cons (c0 : String) (rest : List String) :
    newColumns (c0 :: rest) =
      if pyLower c0 ∈ columnsToStandardize
      then (c0, pyCapitalize c0) :: newColumns rest
      else newColumns rest := by
  by_cases h : pyLower c0 ∈ columnsToStandardize
  · simp only [newColumns, List.filterMap_cons, if_pos h]
  · simp only [newColumns, List.filterMap_cons, if_neg h]

theorem lookup_newColumns_neg (cols : List String) (c : String)
    (hc : pyLower c ∉ columnsToStandardize) :
    (newColumns cols).lookup c = none := by
  induction cols with
  | nil => rfl
  | cons c0 rest ih =>
      rw [newColumns_cons]
      by_cases h0 : pyLower c0 ∈ columnsToStandardize
      · rw [if_pos h0]
        have hne : (c == c0) = false :=
          beq_eq_false_iff_ne.mpr fun heq => hc (heq ▸ h0)
        simp only [List.lookup, hne]
        exact ih
      · rw [if_neg h0]
        exact ih

theorem lookup_newColumns_pos (cols : List String) (c : String)
    (hmem : c ∈ cols) (hc : pyLower c ∈ columnsToStandardize) :
    (newColumns cols).lookup c = some (pyCapitalize c) := by
  induction cols with
  | nil => simp at hmem
  | cons c0 rest ih =>
      by_cases hcc : c = c0
      · subst hcc
        rw [newColumns_cons, if_pos hc]
        simp [List.lookup]
      · have hmem2 : c ∈ rest := by
          rcases List.mem_cons.mp hmem with h1 | h2
          · exact absurd h1 hcc
          · exact h2
        have hne : (c == c0) = false := beq_eq_false_iff_ne.mpr hcc
        by_cases h0 : pyLower c0 ∈ columnsToStandardize
        · rw [newColumns_cons, if_pos h0]
          simp only [List.lookup, hne]
          exact ih hmem2
        · rw [newColumns_cons, if_neg h0]
          exact ih hmem2

/-- C9.  solve_case returns a frame of the same length whose values are
    untouched; a column is renamed to capitalize(col) exactly when
    lower(col) is one of the nine standard labels, and is unchanged
    otherwise; the input frame itself is a value and is not modified
    (df.rename returns a fresh frame). -/
theorem C9_solve_case (df : List (String × List ℚ)) (i : ℕ)
    (hi : i < df.length) :
    (solve_case df).length = df.length ∧
    ((solve_case df).getD i (("", [])) ).2 = (df.getD i (("", [])) ).2 ∧
    ((solve_case df).getD i (("", [])) ).1 =
      (if pyLower (df.getD i (("", [])) ).1 ∈ columnsToStandardize
       then pyCapitalize (df.getD i (("", [])) ).1
       else (df.getD i (("", [])) ).1) := by
  have hlen : (solve_case df).length = df.length := by simp [solve_case]
  have hi2 : i < (solve_case df).length := by rw [hlen]; exact hi
  have hget : (solve_case df).getD i (("", [])) =
      ((((newColumns (df.map Prod.fst)).lookup (df.get ⟨i, hi⟩).1).getD
        (df.get ⟨i, hi⟩).1), (df.get ⟨i, hi⟩).2) := by
    rw [List.getD_eq_getElem _ _ hi2]
    simp [solve_case]
  have hgetd : df.getD i (("", [])) = df.get ⟨i, hi⟩ := by
    rw [List.getD_eq_getElem _ _ hi]
    rfl
  refine ⟨hlen, ?_, ?_⟩
  · rw [hget, hgetd]
  · rw [hget, hgetd]
    have hmem : (df.get ⟨i, hi⟩).1 ∈ df.map Prod.fst :=
      List.mem_map_of_mem Prod.fst (List.get_mem df i hi)
    by_cases hcond : pyLower (df.get ⟨i, hi⟩).1 ∈ columnsToStandardize
    · rw [lookup_newColumns_pos _ _ hmem hcond, if_pos hcond]
      rfl
    · rw [lookup_newColumns_neg _ _ hcond, if_neg hcond]
      rfl

/-- Witness for C9 on a one-column frame named STOCK SPLITS (whose
    lowercasing matches the standard label list and whose capitalize
    form is Stock splits, with only the first letter uppercased). -/
theorem C9_witness :
    (solve_case [(("STOCK SPLITS"), [(2 : ℚ)])]).length
      = [(("STOCK SPLITS"), [(2 : ℚ)])].length ∧
    ((solve_case [(("STOCK SPLITS"), [(2 : ℚ)])]).getD 0 (("", [])) ).2
      = ([(("STOCK SPLITS"), [(2 : ℚ)])].getD 0 (("", [])) ).2 ∧
    ((solve_case [(("STOCK SPLITS"), [(2 : ℚ)])]).getD 0 (("", [])) ).1 =
      (if pyLower ([(("STOCK SPLITS"), [(2 : ℚ)])].getD 0 (("", [])) ).1
          ∈ columnsToStandardize
       then pyCapitalize ([(("STOCK SPLITS"), [(2 : ℚ)])].getD 0 (("", [])) ).1
       else ([(("STOCK SPLITS"), [(2 : ℚ)])].getD 0 (("", [])) ).1) :=
  C9_solve_case [(("STOCK SPLITS"), [(2 : ℚ)])] 0 (by simp)

/-- Concrete rename behaviour: STOCK SPLITS becomes Stock splits (only
    the first character is uppercased), matching str.capitalize. -/
theorem solve_case_stock_splits :
    solve_case [(("STOCK SPLITS"), [(2 : ℚ)])]
      = [(("Stock splits"), [(2 : ℚ)])] := by
  decide

end PyTA
